import Mathlib

/-!
Verification of the streaming segmentation-and-accumulation pipeline of
`process_doc.py`: the knowledge-model merge step, the token-budgeted
overlapping chunk buffer, the role classifier, and the LLM-response helper.

Python dictionaries holding JSON data are embedded as association lists
over an inductive JSON value type; Python strings are Lean `String`s, with
the handful of `str` methods the source uses re-implemented over `List Char`
so that every definition evaluates by kernel reduction.  Timestamps
(`time.time()` floats) are embedded as integers: the source only ever
compares differences of timestamps against integer thresholds.
-/

/-- JSON values, as produced by `json.loads` in the source.  The empty
process-memory schema only uses `null`, `""` and `[]`; fragments returned by
the merge oracle may hold arbitrary values, which the merge step treats
opaquely. -/
inductive JValue where
  | null : JValue
  | str : String → JValue
  | num : Int → JValue
  | bool : Bool → JValue
  | arr : List JValue → JValue
  | obj : List (String × JValue) → JValue

/-- A Python dict holding JSON data: an association list with the dict's
insertion order. -/
abbrev JDict := List (String × JValue)

/-- Python `d.get(key)` (equivalently `d.get(key, default)` before the
`Option.getD`): first binding of `key`, if any. -/
def jget : JDict → String → Option JValue
  | [], _ => none
  | (k, v) :: t, key => if key = k then some v else jget t key

/-- Python truthiness of a JSON value (`if value:`). -/
def jtruthy : JValue → Bool
  | JValue.null => false
  | JValue.str s => s != ""
  | JValue.num n => n != 0
  | JValue.bool b => b
  | JValue.arr l => !l.isEmpty
  | JValue.obj l => !l.isEmpty

/-- Python `str.strip()` on a character list: drop leading and trailing
whitespace. -/
def stripCh (l : List Char) : List Char :=
  (((l.dropWhile (fun c => c.isWhitespace)).reverse.dropWhile
    (fun c => c.isWhitespace))).reverse

/-- Worker for Python `str.split()` (no separator argument): split on
whitespace runs, dropping empty pieces.  `acc` holds the reversed current
word. -/
def splitChAux : List Char → List Char → List (List Char)
  | [], acc => if acc.isEmpty then [] else [acc.reverse]
  | c :: cs, acc =>
    if c.isWhitespace then
      if acc.isEmpty then splitChAux cs [] else acc.reverse :: splitChAux cs []
    else
      splitChAux cs (c :: acc)

/-- Python `str.split()` on a character list. -/
def splitCh (l : List Char) : List (List Char) := splitChAux l []

/-- Python `sep.join(...)` for a one-character separator, on character
lists. -/
def sepJoinBy (sep : Char) : List (List Char) → List Char
  | [] => []
  | [w] => w
  | w :: ws => w ++ sep :: sepJoinBy sep ws

/-- Worker for Python `str.splitlines()` restricted to `\n` newlines (the
only line breaks the source ever feeds it). -/
def splitLinesAux : List Char → List Char → List (List Char)
  | [], acc => if acc.isEmpty then [] else [acc.reverse]
  | c :: cs, acc =>
    if c = '\n' then acc.reverse :: splitLinesAux cs []
    else splitLinesAux cs (c :: acc)

/-- Python `str.strip()`. -/
def pyStrip (s : String) : String := String.mk (stripCh s.toList)

/-- Python `str.lower()`. -/
def pyLower (s : String) : String := String.mk (s.toList.map Char.toLower)

/-- Python `str.upper()`. -/
def pyUpper (s : String) : String := String.mk (s.toList.map Char.toUpper)

/-- Python `str.split()` with no arguments. -/
def pySplit (s : String) : List String := (splitCh s.toList).map String.mk

/-- Python `" ".join(...)`. -/
def joinSpace (ws : List String) : String :=
  String.mk (sepJoinBy ' ' (ws.map String.toList))

/-- Python `"\n".join(...)`. -/
def joinNl (ws : List String) : String :=
  String.mk (sepJoinBy '\n' (ws.map String.toList))

/-- Python `str.splitlines()` (newline-only text). -/
def pySplitlines (s : String) : List String :=
  (splitLinesAux s.toList []).map String.mk

/-- Python `str.startswith(p)`. -/
def pyStartsWith (s p : String) : Bool := p.toList.isPrefixOf s.toList

/-- Python `str.endswith(p)`. -/
def pyEndsWith (s p : String) : Bool := p.toList.isSuffixOf s.toList

/-- `approx_token_count(text)` from the source:
`words = text.strip().split(); return int(len(words) * 0.75)`.
For every word count `n` a Python list can reach, `n * 0.75` is the exact
IEEE-754 double `3n/4` (representable because `3n < 2^53`), and `int(...)`
truncates the non-negative result toward zero, so the returned value is
exactly `⌊3n/4⌋`, embedded here with natural-number division. -/
def approx_token_count (text : String) : Nat :=
  (pySplit (pyStrip text)).length * 3 / 4

/-- `ChunkBuffer` from the source.  `last_activity_ts` is a timestamp; the
source only ever subtracts timestamps and compares against integer
thresholds, so timestamps are embedded as integers supplied explicitly by
the caller (the source reads `now_ts()`). -/
structure ChunkBuffer where
  overlap_tokens : Nat
  token_target : Nat
  token_max : Nat
  last_activity_ts : Int
  buffer : List String
deriving DecidableEq

/-- `ChunkBuffer.flush_chunk` from the source.  Returns the emitted segment
(`None` on an empty buffer) together with the updated buffer state; note
that `last_activity_ts` is NOT updated by a flush.  `max(0, len(words) -
overlap_tokens)` is natural-number subtraction. -/
def flush_chunk (b : ChunkBuffer) : Option String × ChunkBuffer :=
  if b.buffer = [] then (none, b)
  else
    let fullText := pyStrip (joinSpace b.buffer)
    let words := pySplit fullText
    if words.length ≤ b.overlap_tokens then
      (some fullText, { b with buffer := [] })
    else
      let boundary := words.length - b.overlap_tokens
      let chunkText := pyStrip (joinSpace (words.take boundary))
      let overlapText := pyStrip (joinSpace (words.drop boundary))
      (some chunkText,
        { b with buffer := if overlapText = "" then [] else [overlapText] })

/-- `ChunkBuffer.force_flush_chunk` from the source: emit the entire pending
concatenation verbatim and empty the buffer. -/
def force_flush_chunk (b : ChunkBuffer) : Option String × ChunkBuffer :=
  if b.buffer = [] then (none, b)
  else (some (pyStrip (joinSpace b.buffer)), { b with buffer := [] })

/-- The state of a `ChunkBuffer` right after `add` appends
`text.strip()` and stamps `last_activity_ts`, before any flush decision. -/
def appendState (now : Int) (text : String) (b : ChunkBuffer) : ChunkBuffer :=
  { b with buffer := b.buffer ++ [pyStrip text], last_activity_ts := now }

/-- `ChunkBuffer.add` from the source: append the stripped text, stamp
`last_activity_ts` with the current time `now`, then flush by the
soft/hard thresholds. -/
def add (now : Int) (text : String) (b : ChunkBuffer) : Option String × ChunkBuffer :=
  let b1 := appendState now text b
  let tokens := approx_token_count (joinSpace b1.buffer)
  if b1.token_target ≤ tokens then flush_chunk b1
  else if b1.token_max ≤ tokens then force_flush_chunk b1
  else (none, b1)

/-- `ChunkBuffer.flush_if_idle` from the source: soft-flush when the buffer
is non-empty and more than `idle_seconds` have passed since the last
`add`. -/
def flush_if_idle (now : Int) (idle_seconds : Int) (b : ChunkBuffer) :
    Option String × ChunkBuffer :=
  if idle_seconds < now - b.last_activity_ts ∧ b.buffer ≠ [] then flush_chunk b
  else (none, b)

/-- The interrogative prefix tuple `q_starts` from
`heuristic_role_classify` in the source, in source order (note the trailing
spaces on the single words and their absence on the two phrases). -/
def q_starts : List String :=
  ["how ", "what ", "when ", "where ", "why ", "who ", "which ", "can ",
   "could ", "would ", "do ", "does ", "did ", "please explain",
   "walk me through"]

/-- The imperative-request prefix tuple from `heuristic_role_classify` in
the source. -/
def imp_starts : List String :=
  ["describe ", "outline ", "explain ", "detail ", "tell me "]

/-- `heuristic_role_classify(text)` from the source. -/
def heuristic_role_classify (text : String) : String :=
  let t := pyLower (pyStrip text)
  if t = "" then "ANSWER"
  else if pyEndsWith t "?" then "QUESTION"
  else if q_starts.any (fun p => pyStartsWith t p) then "QUESTION"
  else if imp_starts.any (fun p => pyStartsWith t p) then "QUESTION"
  else "ANSWER"

/-- The claim's interrogative-word test, spelt as one test per listed word:
how/what/when/where/why/who/which/can/could/would/do/does/did/
"please explain"/"walk me through". -/
def startsWithInterrogative (t : String) : Bool :=
  pyStartsWith t "how " || pyStartsWith t "what " || pyStartsWith t "when " ||
  pyStartsWith t "where " || pyStartsWith t "why " || pyStartsWith t "who " ||
  pyStartsWith t "which " || pyStartsWith t "can " || pyStartsWith t "could " ||
  pyStartsWith t "would " || pyStartsWith t "do " || pyStartsWith t "does " ||
  pyStartsWith t "did " || pyStartsWith t "please explain" ||
  pyStartsWith t "walk me through"

/-- The claim's imperative-request-verb test, spelt as one test per listed
verb: describe/outline/explain/detail/"tell me". -/
def startsWithImperativeRequest (t : String) : Bool :=
  pyStartsWith t "describe " || pyStartsWith t "outline " ||
  pyStartsWith t "explain " || pyStartsWith t "detail " ||
  pyStartsWith t "tell me "

/-- First index of a character in a list: Python `str.find` (with `None`
for Python's `-1`). -/
def findIdxCh (c : Char) : List Char → Option Nat
  | [] => none
  | x :: xs => if x = c then some 0 else (findIdxCh c xs).map (· + 1)

/-- Last index of a character in a list: Python `str.rfind` (with `None`
for Python's `-1`). -/
def rfindIdxCh (c : Char) (l : List Char) : Option Nat :=
  (findIdxCh c l.reverse).map (fun i => l.length - 1 - i)

/-- The opening-brace character. -/
def lbrace : Char := Char.ofNat 123

/-- The closing-brace character. -/
def rbrace : Char := Char.ofNat 125

/-- `llm_json_completion(system_prompt, user_prompt)` from the source,
abstracted over its two external dependencies: `create` is the outcome of
`client.chat.completions.create(...)` followed by reading
`resp.choices[0].message.content` (an exception, or an optional content
string), and `jsonLoads` is Python's `json.loads` restricted to top-level
objects (`none` when `json.loads` raises).  The source has no handler
around the completion call itself, so an exception there propagates; only
the JSON parsing is guarded, degrading through a fenced-code-block strip,
then a brace-delimited substring, then the empty dict. -/
def llm_json_completion (jsonLoads : String → Option JDict)
    (create : Except String (Option String)) : Except String JDict :=
  match create with
  | Except.error e => Except.error e
  | Except.ok contentOpt =>
    let content := contentOpt.getD "\x7b\x7d"
    let text0 := pyStrip content
    let text :=
      if pyStartsWith text0 "```" then
        joinNl ((pySplitlines text0).filter
          (fun line => !(pyStartsWith (pyStrip line) "```")))
      else text0
    match jsonLoads text with
    | some d => Except.ok d
    | none =>
      match findIdxCh lbrace text.toList, rfindIdxCh rbrace text.toList with
      | some s, some e =>
        if s < e then
          match jsonLoads (String.mk ((text.toList.drop s).take (e + 1 - s))) with
          | some d => Except.ok d
          | none => Except.ok []
        else Except.ok []
      | some _, none => Except.ok []
      | none, _ => Except.ok []

/-- `classify_role(text)` from the source, abstracted over
`ROLE_CLASSIFIER_MODE` and the two external dependencies of
`llm_json_completion`.  `(res.get("role") or "ANSWER").upper()` falls back
to `"ANSWER"` on a missing or falsy value; calling `.upper()` on a truthy
non-string value would raise an `AttributeError`, which is embedded as an
error outcome. -/
def classify_role (mode : String) (text : String)
    (jsonLoads : String → Option JDict) (create : Except String (Option String)) :
    Except String String :=
  if mode = "heuristic" then Except.ok (heuristic_role_classify text)
  else
    match llm_json_completion jsonLoads create with
    | Except.error e => Except.error e
    | Except.ok res =>
      let roleVal :=
        match jget res "role" with
        | some v => if jtruthy v then v else JValue.str "ANSWER"
        | none => JValue.str "ANSWER"
      match roleVal with
      | JValue.str s =>
        Except.ok (if pyUpper s = "QUESTION" then "QUESTION" else "ANSWER")
      | _ => Except.error "AttributeError"

/-- `empty_process_memory()` from the source: the canonical empty schema,
17 top-level fields in source order. -/
def empty_process_memory : JDict :=
  [("title", JValue.null),
   ("overview", JValue.str ""),
   ("actors", JValue.arr []),
   ("inputs", JValue.arr []),
   ("outputs", JValue.arr []),
   ("preconditions", JValue.arr []),
   ("postconditions", JValue.arr []),
   ("main_flow", JValue.arr []),
   ("alternate_paths", JValue.arr []),
   ("exceptions", JValue.arr []),
   ("business_rules", JValue.arr []),
   ("tools_systems", JValue.arr []),
   ("metrics_slas", JValue.arr []),
   ("risks_controls", JValue.arr []),
   ("glossary", JValue.arr []),
   ("open_questions", JValue.arr []),
   ("assumptions", JValue.arr [])]

/-- `merge_models(a, b)` from the source.  The models `a` and `b` are only
serialized into the oracle prompt; `merged` is the oracle's reply
(`llm_json_completion(MERGE_SYSTEM, ...)`), passed here as an input.  The
source then runs
`base = empty_process_memory(); base.update({k: merged.get(k, v) for k, v in base.items()})`:
every key of the empty schema is looked up in `merged`, defaulting to the
empty schema's own value `v` for that key. -/
def merge_models (a b merged : JDict) : JDict :=
  empty_process_memory.map (fun kv => (kv.1, (jget merged kv.1).getD kv.2))

/-- The source's default `ChunkBuffer()` configuration
(`CHUNK_OVERLAP = 120`, `CHUNK_TOKEN_TARGET = 800`, `CHUNK_TOKEN_MAX =
1100`), constructed at time 0 with an empty buffer. -/
def defaultBuffer : ChunkBuffer := ⟨120, 800, 1100, 0, []⟩

/-- A concrete buffer state used to exercise the idle-flush claims: overlap
of one token, pending text `"a b"`, last activity at time 0. -/
def idleBuffer : ChunkBuffer := ⟨1, 800, 1100, 0, ["a b"]⟩

/-- Run a sequence of `add` calls, threading the buffer state; returns the
per-call results in order together with the final state. -/
def runAdds : ChunkBuffer → List (Int × String) → List (Option String) × ChunkBuffer
  | b, [] => ([], b)
  | b, (t, s) :: rest =>
    let r := add t s b
    let rs := runAdds r.2 rest
    (r.1 :: rs.1, rs.2)

/-- The hypothesis of C5, decidably: at every `add` of the sequence, the
approximate token count of the pending concatenation (after the append that
`add` performs) stays strictly below `token_target`. -/
def lowCounts : ChunkBuffer → List (Int × String) → Bool
  | _, [] => true
  | b, (t, s) :: rest =>
    decide (approx_token_count (joinSpace (b.buffer ++ [pyStrip s])) < b.token_target)
      && lowCounts (add t s b).2 rest

/-- Splitting an all-whitespace tail only closes the current word. -/
theorem splitChAux_allWS (t : List Char) (acc : List Char)
    (h : ∀ c ∈ t, c.isWhitespace = true) :
    splitChAux t acc = if acc.isEmpty then [] else [acc.reverse] := by
  induction t generalizing acc with
  | nil => rfl
  | cons c cs ih =>
    have hc : c.isWhitespace = true := h c (List.mem_cons_self c cs)
    have hcs : ∀ x ∈ cs, x.isWhitespace = true := fun x hx => h x (List.mem_cons_of_mem c hx)
    by_cases ha : acc.isEmpty <;>
      simp [splitChAux, hc, ha, ih [] hcs]

/-- Appending trailing whitespace does not change the split. -/
theorem splitChAux_append_ws (l t acc : List Char)
    (h : ∀ c ∈ t, c.isWhitespace = true) :
    splitChAux (l ++ t) acc = splitChAux l acc := by
  induction l generalizing acc with
  | nil =>
    rw [List.nil_append, splitChAux_allWS t acc h]
    rfl
  | cons c cs ih =>
    by_cases hc : c.isWhitespace <;> by_cases ha : acc.isEmpty <;>
      simp [splitChAux, hc, ha, ih]

/-- Dropping leading whitespace does not change the split. -/
theorem splitChAux_dropWhile (l : List Char) :
    splitChAux (l.dropWhile (fun c => c.isWhitespace)) [] = splitChAux l [] := by
  induction l with
  | nil => rfl
  | cons c cs ih =>
    by_cases hc : c.isWhitespace <;>
      simp [List.dropWhile_cons, splitChAux, hc, ih]

/-- Python `text.strip().split() == text.split()`. -/
theorem splitCh_stripCh (l : List Char) : splitCh (stripCh l) = splitCh l := by
  unfold splitCh stripCh
  set m := l.dropWhile (fun c => c.isWhitespace) with hm
  have hsplit : m.reverse.takeWhile (fun c => c.isWhitespace) ++
      m.reverse.dropWhile (fun c => c.isWhitespace) = m.reverse :=
    List.takeWhile_append_dropWhile (fun c => c.isWhitespace) m.reverse
  have hrepr : (m.reverse.dropWhile (fun c => c.isWhitespace)).reverse ++
      (m.reverse.takeWhile (fun c => c.isWhitespace)).reverse = m := by
    rw [← List.reverse_append, hsplit, List.reverse_reverse]
  have hws : ∀ c ∈ (m.reverse.takeWhile (fun c => c.isWhitespace)).reverse,
      c.isWhitespace = true := by
    intro c hc
    rw [List.mem_reverse] at hc
    exact List.mem_takeWhile_imp hc
  calc splitChAux (m.reverse.dropWhile (fun c => c.isWhitespace)).reverse []
      = splitChAux ((m.reverse.dropWhile (fun c => c.isWhitespace)).reverse ++
          (m.reverse.takeWhile (fun c => c.isWhitespace)).reverse) [] :=
        (splitChAux_append_ws _ _ [] hws).symm
    _ = splitChAux m [] := by rw [hrepr]
    _ = splitChAux l [] := splitChAux_dropWhile l

/-- Every word produced by the split worker is non-empty and free of
whitespace, provided the accumulator is. -/
theorem splitChAux_clean (l : List Char) (acc : List Char)
    (hacc : ∀ c ∈ acc, c.isWhitespace = false) :
    ∀ w ∈ splitChAux l acc, w ≠ [] ∧ ∀ c ∈ w, c.isWhitespace = false := by
  induction l generalizing acc with
  | nil =>
    intro w hw
    by_cases ha : acc.isEmpty
    · simp [splitChAux, ha] at hw
    · simp [splitChAux, ha] at hw
      subst hw
      refine ⟨fun hn => ha ?_, fun c hc => hacc c (List.mem_reverse.mp hc)⟩
      rw [← List.reverse_reverse acc, hn]
      rfl
  | cons c cs ih =>
    intro w hw
    by_cases hc : c.isWhitespace
    · by_cases ha : acc.isEmpty
      · simp [splitChAux, hc, ha] at hw
        exact ih [] (by intro x hx; cases hx) w hw
      · simp [splitChAux, hc, ha] at hw
        rcases hw with hw | hw
        · subst hw
          refine ⟨fun hn => ha ?_, fun x hx => hacc x (List.mem_reverse.mp hx)⟩
          rw [← List.reverse_reverse acc, hn]
          rfl
        · exact ih [] (by intro x hx; cases hx) w hw
    · simp only [splitChAux, hc, if_neg, ite_false] at hw
      refine ih (c :: acc) ?_ w hw
      intro x hx
      rcases List.mem_cons.mp hx with hx | hx
      · subst hx
        exact eq_false_of_ne_true hc
      · exact hacc x hx

/-- Every word of a Python `split()` is non-empty and whitespace-free. -/
theorem splitCh_clean (l : List Char) :
    ∀ w ∈ splitCh l, w ≠ [] ∧ ∀ c ∈ w, c.isWhitespace = false :=
  splitChAux_clean l [] (by intro x hx; cases hx)

/-- Joining a non-empty list of non-empty words is non-empty. -/
theorem sepJoinBy_ne_nil (sep : Char) (ws : List (List Char)) (hne : ws ≠ [])
    (hw : ∀ w ∈ ws, w ≠ []) : sepJoinBy sep ws ≠ [] := by
  match ws with
  | [] => exact absurd rfl hne
  | [w] => exact hw w (List.mem_singleton.mpr rfl)
  | w :: x :: r =>
    have hwne : w ≠ [] := hw w (List.mem_cons_self _ _)
    match w with
    | [] => exact absurd rfl hwne
    | c :: w' => simp [sepJoinBy]

/-- The join of words whose first word starts with `c` starts with `c`. -/
theorem sepJoinBy_cons_head (sep : Char) (c : Char) (w' : List Char)
    (t : List (List Char)) :
    ∃ r, sepJoinBy sep ((c :: w') :: t) = c :: r := by
  match t with
  | [] => exact ⟨w', rfl⟩
  | x :: r => exact ⟨w' ++ sep :: sepJoinBy sep (x :: r), rfl⟩

/-- The last character of a join of clean words is the last character of the
last word, hence not whitespace. -/
theorem getLast?_sepJoinBy (sep : Char) (ws : List (List Char)) (hne : ws ≠ [])
    (hc : ∀ w ∈ ws, w ≠ [] ∧ ∀ c ∈ w, c.isWhitespace = false) :
    ∃ c, (sepJoinBy sep ws).getLast? = some c ∧ c.isWhitespace = false := by
  induction ws with
  | nil => exact absurd rfl hne
  | cons w t ih =>
    match t with
    | [] =>
      have hw := hc w (List.mem_singleton.mpr rfl)
      refine ⟨w.getLast hw.1, ?_, hw.2 _ (List.getLast_mem hw.1)⟩
      exact List.getLast?_eq_getLast w hw.1
    | x :: r =>
      obtain ⟨c, hcl, hcw⟩ := ih (by simp)
        (fun w' hw' => hc w' (List.mem_cons_of_mem w hw'))
      refine ⟨c, ?_, hcw⟩
      have : sepJoinBy sep (w :: x :: r) = w ++ sep :: sepJoinBy sep (x :: r) := rfl
      rw [this, List.getLast?_append_of_ne_nil w (by simp)]
      have hsingle : sep :: sepJoinBy sep (x :: r) = [sep] ++ sepJoinBy sep (x :: r) := rfl
      rw [hsingle, List.getLast?_append_of_ne_nil [sep]
        (sepJoinBy_ne_nil sep (x :: r) (by simp)
          (fun w' hw' => (hc w' (List.mem_cons_of_mem w hw')).1))]
      exact hcl

/-- Stripping a join of clean words is the identity. -/
theorem stripCh_sepJoinBy (sep : Char) (ws : List (List Char)) (hne : ws ≠ [])
    (hc : ∀ w ∈ ws, w ≠ [] ∧ ∀ c ∈ w, c.isWhitespace = false) :
    stripCh (sepJoinBy sep ws) = sepJoinBy sep ws := by
  unfold stripCh
  have hleft : (sepJoinBy sep ws).dropWhile (fun c => c.isWhitespace) =
      sepJoinBy sep ws := by
    match ws with
    | [] => exact absurd rfl hne
    | w :: t =>
      have hw := hc w (List.mem_cons_self _ _)
      match w with
      | [] => exact absurd rfl hw.1
      | c :: w' =>
        obtain ⟨r, hr⟩ := sepJoinBy_cons_head sep c w' t
        rw [hr]
        exact List.dropWhile_cons_of_neg
          (by simp [hw.2 c (List.mem_cons_self _ _)])
  rw [hleft]
  obtain ⟨d, hd, hdw⟩ := getLast?_sepJoinBy sep ws hne hc
  have hrev : (sepJoinBy sep ws).reverse.head? = some d := by
    rw [List.head?_reverse]
    exact hd
  match hmr : (sepJoinBy sep ws).reverse with
  | [] => rw [hmr] at hrev; cases hrev
  | e :: t =>
    rw [hmr] at hrev
    have hde : e = d := by
      simpa using hrev
    rw [List.dropWhile_cons_of_neg (by simp [hde, hdw])]
    rw [← hmr, List.reverse_reverse]

/-- String level: `text.strip().split() == text.split()`. -/
theorem pySplit_pyStrip (s : String) : pySplit (pyStrip s) = pySplit s := by
  unfold pySplit pyStrip
  have : (String.mk (stripCh s.toList)).toList = stripCh s.toList := rfl
  rw [this, splitCh_stripCh]

/-- Every word of a Python `split()`, at string level. -/
theorem pySplit_clean (s : String) :
    ∀ w ∈ pySplit s, w.toList ≠ [] ∧ ∀ c ∈ w.toList, c.isWhitespace = false := by
  intro w hw
  unfold pySplit at hw
  obtain ⟨cw, hcw, rfl⟩ := List.mem_map.mp hw
  exact splitCh_clean s.toList cw hcw

/-- Stripping a single-space join of clean words is the identity. -/
theorem pyStrip_joinSpace_clean (ws : List String) (hne : ws ≠ [])
    (hc : ∀ w ∈ ws, w.toList ≠ [] ∧ ∀ c ∈ w.toList, c.isWhitespace = false) :
    pyStrip (joinSpace ws) = joinSpace ws := by
  unfold pyStrip joinSpace
  have : (String.mk (sepJoinBy ' ' (ws.map String.toList))).toList =
      sepJoinBy ' ' (ws.map String.toList) := rfl
  rw [this, stripCh_sepJoinBy ' ' (ws.map String.toList)
      (by simpa using hne)
      (by intro w hw
          obtain ⟨x, hx, rfl⟩ := List.mem_map.mp hw
          exact hc x hx)]

/-- A single-space join of non-empty words is a non-empty string. -/
theorem joinSpace_ne_empty (ws : List String) (hne : ws ≠ [])
    (hw : ∀ w ∈ ws, w.toList ≠ []) : joinSpace ws ≠ "" := by
  unfold joinSpace
  intro h
  have : sepJoinBy ' ' (ws.map String.toList) = [] := by
    have := congrArg String.toList h
    simpa using this
  refine sepJoinBy_ne_nil ' ' (ws.map String.toList) (by simpa using hne) ?_ this
  intro w hw'
  obtain ⟨x, hx, rfl⟩ := List.mem_map.mp hw'
  exact hw x hx

/-- C2: the soft-flush overlap law.  For every `ChunkBuffer` with pending
segments and a positive overlap configuration, splitting the pending
concatenation into token sequence `T`: when `|T| > overlap_tokens`,
`flush_chunk` emits exactly the first `|T| - overlap_tokens` tokens of `T`
joined by single spaces and leaves as the sole pending segment exactly the
last `overlap_tokens` tokens of `T` joined by single spaces; when
`|T| ≤ overlap_tokens`, the entire pending text is emitted and the buffer
becomes empty.  `last_activity_ts` and the configuration are untouched. -/
theorem c2_soft_flush_overlap_law (b : ChunkBuffer) (hne : b.buffer ≠ [])
    (hov : 0 < b.overlap_tokens) :
    (b.overlap_tokens < (pySplit (joinSpace b.buffer)).length →
      flush_chunk b =
        (some (joinSpace (List.take
            ((pySplit (joinSpace b.buffer)).length - b.overlap_tokens)
            (pySplit (joinSpace b.buffer)))),
          { b with buffer := [joinSpace (List.drop
            ((pySplit (joinSpace b.buffer)).length - b.overlap_tokens)
            (pySplit (joinSpace b.buffer)))] })) ∧
    ((pySplit (joinSpace b.buffer)).length ≤ b.overlap_tokens →
      flush_chunk b = (some (pyStrip (joinSpace b.buffer)), { b with buffer := [] })) := by
  have hsp : pySplit (pyStrip (joinSpace b.buffer)) = pySplit (joinSpace b.buffer) :=
    pySplit_pyStrip (joinSpace b.buffer)
  constructor
  · intro hgt
    have hclean := pySplit_clean (joinSpace b.buffer)
    have hboundary : 0 < (pySplit (joinSpace b.buffer)).length - b.overlap_tokens :=
      Nat.sub_pos_of_lt hgt
    have htake_ne : List.take
        ((pySplit (joinSpace b.buffer)).length - b.overlap_tokens)
        (pySplit (joinSpace b.buffer)) ≠ [] := by
      rw [← List.length_pos, List.length_take]
      exact lt_min hboundary (lt_of_lt_of_le hboundary (Nat.sub_le _ _))
    have hdrop_ne : List.drop
        ((pySplit (joinSpace b.buffer)).length - b.overlap_tokens)
        (pySplit (joinSpace b.buffer)) ≠ [] := by
      rw [← List.length_pos, List.length_drop]
      rw [Nat.sub_sub_self (le_of_lt hgt)]
      exact hov
    have hchunk : pyStrip (joinSpace (List.take
        ((pySplit (joinSpace b.buffer)).length - b.overlap_tokens)
        (pySplit (joinSpace b.buffer)))) =
        joinSpace (List.take
        ((pySplit (joinSpace b.buffer)).length - b.overlap_tokens)
        (pySplit (joinSpace b.buffer))) :=
      pyStrip_joinSpace_clean _ htake_ne
        (fun w hw => hclean w (List.take_subset _ _ hw))
    have hover : pyStrip (joinSpace (List.drop
        ((pySplit (joinSpace b.buffer)).length - b.overlap_tokens)
        (pySplit (joinSpace b.buffer)))) =
        joinSpace (List.drop
        ((pySplit (joinSpace b.buffer)).length - b.overlap_tokens)
        (pySplit (joinSpace b.buffer))) :=
      pyStrip_joinSpace_clean _ hdrop_ne
        (fun w hw => hclean w (List.drop_subset _ _ hw))
    have hover_ne : joinSpace (List.drop
        ((pySplit (joinSpace b.buffer)).length - b.overlap_tokens)
        (pySplit (joinSpace b.buffer))) ≠ "" :=
      joinSpace_ne_empty _ hdrop_ne
        (fun w hw => (hclean w (List.drop_subset _ _ hw)).1)
    simp [flush_chunk, hsp, hne, not_le_of_lt hgt, hchunk, hover, hover_ne]
  · intro hle
    simp only [flush_chunk, hsp]
    simp [hne, hle]

/-- The C2 theorem at a concrete input: pending `"a b"` with
`overlap_tokens = 1` has token sequence `["a", "b"]`, so the soft flush
emits `"a"` and retains `"b"` as the sole pending segment. -/
theorem c2_soft_flush_overlap_law_witness :
    flush_chunk idleBuffer = (some "a", { idleBuffer with buffer := ["b"] }) := by
  have h := (c2_soft_flush_overlap_law idleBuffer (by decide) (by decide)).1 (by decide)
  rw [h]
  decide

/-- A soft flush on a non-empty buffer always emits a segment: both branches
of `flush_chunk` return `some`. -/
theorem flush_chunk_fst_isSome (b : ChunkBuffer) (h : b.buffer ≠ []) :
    (flush_chunk b).1.isSome := by
  unfold flush_chunk
  rw [if_neg h]
  by_cases hw : (pySplit (pyStrip (joinSpace b.buffer))).length ≤ b.overlap_tokens <;>
    simp [hw]

/-- `flush_if_idle` returns nothing exactly when the buffer is empty or the
idle threshold has not been exceeded. -/
theorem flush_if_idle_fst_eq_none (now idle : Int) (b : ChunkBuffer) :
    (flush_if_idle now idle b).1 = none ↔
      (b.buffer = [] ∨ ¬ idle < now - b.last_activity_ts) := by
  unfold flush_if_idle
  by_cases h : idle < now - b.last_activity_ts ∧ b.buffer ≠ []
  · rw [if_pos h]
    have hs := flush_chunk_fst_isSome b h.2
    constructor
    · intro hn
      rw [hn] at hs
      exact absurd hs (by simp)
    · intro hc
      rcases hc with hc | hc
      · exact absurd hc h.2
      · exact absurd h.1 hc
  · rw [if_neg h]
    simp only [true_iff]
    by_cases hb : b.buffer = []
    · exact Or.inl hb
    · exact Or.inr (fun hi => h ⟨hi, hb⟩)

/-- C3 is false on the code: a buffer holding `"a b"` with `overlap_tokens
= 1` that has been idle since time 0, soft-flushed by `flush_if_idle` at
time 100 with threshold 20, emits `"a"` and retains the overlap `"b"`;
because `flush_chunk` neither empties the buffer nor refreshes
`last_activity_ts`, a second `flush_if_idle` with no intervening `add`
emits the retained overlap `"b"` instead of returning nothing. -/
theorem c3_idle_flush_not_idempotent_counterexample :
    (flush_if_idle 100 20 idleBuffer).1 = some "a" ∧
      (flush_if_idle 100 20 (flush_if_idle 100 20 idleBuffer).2).1 = some "b" := by
  constructor <;> decide

/-- C3 (amended): for two `flush_if_idle` calls in succession with no
intervening `add`, the second call returns nothing precisely when the first
call left the buffer empty or the second call is not past the idle
threshold; in particular, when the first flush retains a non-empty overlap
and the buffer is still idle (soft flush updates neither), the second call
emits a segment. -/
theorem c3_idle_flush_second_call (b : ChunkBuffer) (now₁ now₂ idle : Int) :
    (flush_if_idle now₂ idle (flush_if_idle now₁ idle b).2).1 = none ↔
      ((flush_if_idle now₁ idle b).2.buffer = [] ∨
        ¬ idle < now₂ - (flush_if_idle now₁ idle b).2.last_activity_ts) :=
  flush_if_idle_fst_eq_none now₂ idle (flush_if_idle now₁ idle b).2

/-- C4: when the construction invariant `token_target ≤ token_max` holds,
`add` either returns no segment or the result of the soft flush
`flush_chunk`; the `force_flush_chunk` branch of `add` is unreachable,
because a token count reaching `token_max` has already reached
`token_target`. -/
theorem c4_hard_flush_unreachable (b : ChunkBuffer) (now : Int) (text : String)
    (htm : b.token_target ≤ b.token_max) :
    add now text b =
      (if b.token_target ≤
          approx_token_count (joinSpace (appendState now text b).buffer) then
        flush_chunk (appendState now text b)
      else
        (none, appendState now text b)) := by
  unfold add
  by_cases h : b.token_target ≤
      approx_token_count (joinSpace (appendState now text b).buffer)
  · simp only [appendState] at h ⊢
    simp only [h, if_pos]
  · have hmax : ¬ b.token_max ≤
        approx_token_count (joinSpace (appendState now text b).buffer) := by
      intro hm
      exact h (le_trans htm hm)
    simp only [appendState] at h hmax ⊢
    simp only [h, hmax, if_neg, ite_false]

/-- The C4 theorem at a concrete input: one short utterance added to an
empty buffer with the source's default configuration stays below the soft
threshold, so no segment is returned. -/
theorem c4_hard_flush_unreachable_witness :
    (add 17 "hello world" defaultBuffer).1 = none := by
  rw [c4_hard_flush_unreachable defaultBuffer 17 "hello world" (by decide)]
  decide

/-- A single `add` below both thresholds only appends. -/
theorem add_below_target (b : ChunkBuffer) (now : Int) (text : String)
    (htm : b.token_target ≤ b.token_max)
    (hlow : approx_token_count (joinSpace (b.buffer ++ [pyStrip text])) < b.token_target) :
    add now text b = (none, appendState now text b) := by
  unfold add appendState
  have h1 : ¬ b.token_target ≤
      approx_token_count (joinSpace (b.buffer ++ [pyStrip text])) :=
    not_le_of_lt hlow
  have h2 : ¬ b.token_max ≤
      approx_token_count (joinSpace (b.buffer ++ [pyStrip text])) := by
    intro hm
    exact h1 (le_trans htm hm)
  simp only [h1, h2, if_neg, ite_false]

/-- C5: under the construction invariant `token_target ≤ token_max`, every
sequence of `add` calls whose approximate token count of the pending
concatenation never reaches `token_target` emits no segment at any call. -/
theorem c5_below_target_no_emit (b : ChunkBuffer) (inputs : List (Int × String))
    (htm : b.token_target ≤ b.token_max) (hlow : lowCounts b inputs = true) :
    ((runAdds b inputs).1.all (fun o => o.isNone)) = true := by
  induction inputs generalizing b with
  | nil => rfl
  | cons p rest ih =>
    obtain ⟨t, s⟩ := p
    simp only [lowCounts, Bool.and_eq_true, decide_eq_true_eq] at hlow
    have hstep := add_below_target b t s htm hlow.1
    have hlow2 := hlow.2
    rw [hstep] at hlow2
    simp only [runAdds, hstep, List.all_cons, Option.isNone_none, Bool.true_and]
    exact ih _ htm hlow2

/-- The C5 theorem at a concrete input: two short utterances under the
source's default configuration stay below the target and emit nothing. -/
theorem c5_below_target_no_emit_witness :
    ((runAdds defaultBuffer [(1, "hello world"), (2, "more text here")]).1.all
      (fun o => o.isNone)) = true :=
  c5_below_target_no_emit defaultBuffer [(1, "hello world"), (2, "more text here")]
    (by decide) (by decide)

/-- The code's tuple test is the claim's word-by-word interrogative test. -/
theorem q_starts_any_eq (t : String) :
    q_starts.any (fun p => pyStartsWith t p) = startsWithInterrogative t := by
  simp [q_starts, startsWithInterrogative, Bool.or_assoc]

/-- The code's tuple test is the claim's verb-by-verb imperative test. -/
theorem imp_starts_any_eq (t : String) :
    imp_starts.any (fun p => pyStartsWith t p) = startsWithImperativeRequest t := by
  simp [imp_starts, startsWithImperativeRequest, Bool.or_assoc]

/-- C8: on the normalized utterance (stripped, lower-cased), the heuristic
classifier returns ANSWER on empty text; QUESTION on text ending in `?`;
QUESTION on text starting with one of the fixed interrogative words;
QUESTION on text starting with one of the fixed imperative-request verbs;
and ANSWER otherwise, with the checks applied in that order. -/
theorem c8_heuristic_classifier_cases (text : String) :
    (pyLower (pyStrip text) = "" → heuristic_role_classify text = "ANSWER") ∧
    (pyLower (pyStrip text) ≠ "" →
      pyEndsWith (pyLower (pyStrip text)) "?" = true →
      heuristic_role_classify text = "QUESTION") ∧
    (pyLower (pyStrip text) ≠ "" →
      pyEndsWith (pyLower (pyStrip text)) "?" = false →
      startsWithInterrogative (pyLower (pyStrip text)) = true →
      heuristic_role_classify text = "QUESTION") ∧
    (pyLower (pyStrip text) ≠ "" →
      pyEndsWith (pyLower (pyStrip text)) "?" = false →
      startsWithInterrogative (pyLower (pyStrip text)) = false →
      startsWithImperativeRequest (pyLower (pyStrip text)) = true →
      heuristic_role_classify text = "QUESTION") ∧
    (pyLower (pyStrip text) ≠ "" →
      pyEndsWith (pyLower (pyStrip text)) "?" = false →
      startsWithInterrogative (pyLower (pyStrip text)) = false →
      startsWithImperativeRequest (pyLower (pyStrip text)) = false →
      heuristic_role_classify text = "ANSWER") := by
  refine ⟨?_, ?_, ?_, ?_, ?_⟩
  · intro h1
    simp [heuristic_role_classify, h1]
  · intro h1 h2
    simp [heuristic_role_classify, h1, h2]
  · intro h1 h2 h3
    simp [heuristic_role_classify, h1, h2, q_starts_any_eq, h3]
  · intro h1 h2 h3 h4
    simp [heuristic_role_classify, h1, h2, q_starts_any_eq, h3,
      imp_starts_any_eq, h4]
  · intro h1 h2 h3 h4
    simp [heuristic_role_classify, h1, h2, q_starts_any_eq, h3,
      imp_starts_any_eq, h4]

/-- The C8 theorem at a concrete input: `"Describe the flow"` falls through
to the imperative-request-verb check and is classified QUESTION. -/
theorem c8_heuristic_classifier_cases_witness :
    heuristic_role_classify "Describe the flow" = "QUESTION" :=
  (c8_heuristic_classifier_cases "Describe the flow").2.2.2.1
    (by decide) (by decide) (by decide) (by decide)

/-- C7 is false on the code: in `llm` mode, an exception raised by the
underlying completion call propagates out of `classify_role` (there is no
handler around `client.chat.completions.create`), instead of resulting in
the classification ANSWER. -/
theorem c7_classify_raises_counterexample :
    classify_role "llm" "hello" (fun _ => none) (Except.error "boom") =
        Except.error "boom" ∧
      (Except.error "boom" : Except String String) ≠ Except.ok "ANSWER" :=
  ⟨rfl, fun h => Except.noConfusion h⟩

/-- C7 (amended): in `llm` mode, a missing or unparseable oracle response
degrades to the classification ANSWER (no matter what the raw content
was), but an exception raised by the underlying completion call
propagates unchanged. -/
theorem c7_classify_degrades_without_exception (text e : String)
    (jsonLoads : String → Option JDict) (content : Option String)
    (hj : ∀ t, jsonLoads t = none) :
    classify_role "llm" text jsonLoads (Except.error e) = Except.error e ∧
      classify_role "llm" text jsonLoads (Except.ok content) = Except.ok "ANSWER" := by
  constructor
  · rfl
  · have hres : llm_json_completion jsonLoads (Except.ok content) = Except.ok [] := by
      unfold llm_json_completion
      simp only [hj, ite_self]
      split
      · rfl
      · rfl
      · rfl
    unfold classify_role
    rw [if_neg (by decide : ¬("llm" : String) = "heuristic"), hres]
    rfl

/-- The amended C7 at a concrete input. -/
theorem c7_classify_degrades_without_exception_witness :
    classify_role "llm" "x" (fun _ => none) (Except.error "err") =
        Except.error "err" ∧
      classify_role "llm" "x" (fun _ => none) (Except.ok none) = Except.ok "ANSWER" :=
  c7_classify_degrades_without_exception "x" "err" (fun _ => none) none
    (fun _ => rfl)

/-- C9 is false on the code: `approx_token_count` truncates with `int(...)`,
so for the three-word text `"a b c"` it returns `2`, which is not the exact
product `3 × 0.75 = 9/4`. -/
theorem c9_token_count_not_exact_counterexample :
    approx_token_count "a b c" = 2 ∧
      ((2 : ℚ) ≠ ((pySplit "a b c").length : ℚ) * (3 / 4)) := by
  constructor
  · decide
  · have h3 : (pySplit "a b c").length = 3 := by decide
    rw [h3]
    norm_num

/-- Natural-number division by 4 computes the rational floor of `n × 0.75`. -/
theorem int_floor_token (n : ℕ) : ((n * 3 / 4 : ℕ) : ℤ) = ⌊(n : ℚ) * (3 / 4)⌋ := by
  have h1 : n * 3 / 4 * 4 ≤ n * 3 := by omega
  have h2 : n * 3 < (n * 3 / 4 + 1) * 4 := by omega
  have h1q : ((n * 3 / 4 : ℕ) : ℚ) * 4 ≤ (n : ℚ) * 3 := by exact_mod_cast h1
  have h2q : (n : ℚ) * 3 < (((n * 3 / 4 : ℕ) : ℚ) + 1) * 4 := by exact_mod_cast h2
  rw [eq_comm, Int.floor_eq_iff]
  constructor
  · show (((n * 3 / 4 : ℕ) : ℤ) : ℚ) ≤ (n : ℚ) * (3 / 4)
    rw [Int.cast_natCast]
    linarith
  · show (n : ℚ) * (3 / 4) < (((n * 3 / 4 : ℕ) : ℤ) : ℚ) + 1
    rw [Int.cast_natCast]
    linarith

/-- C9 (amended): the approximate token count equals the floor of the word
count times `0.75`, not the exact product; and because `token_target` and
`token_max` are integers, every size decision `threshold ≤ count` coincides
with the comparison against the exact product `word count × 0.75`. -/
theorem c9_token_count_floor_equiv (s : String) (t : Nat) :
    ((approx_token_count s : ℤ) = ⌊((pySplit s).length : ℚ) * (3 / 4)⌋) ∧
      (t ≤ approx_token_count s ↔
        (t : ℚ) ≤ ((pySplit s).length : ℚ) * (3 / 4)) := by
  have hsp : pySplit (pyStrip s) = pySplit s := pySplit_pyStrip s
  have hdef : approx_token_count s = (pySplit s).length * 3 / 4 := by
    unfold approx_token_count
    rw [hsp]
  constructor
  · rw [hdef]
    exact int_floor_token (pySplit s).length
  · rw [hdef, Nat.le_div_iff_mul_le (by norm_num : 0 < 4)]
    constructor
    · intro h
      have hc : ((t * 4 : ℕ) : ℚ) ≤ (((pySplit s).length * 3 : ℕ) : ℚ) := by
        exact_mod_cast h
      push_cast at hc
      linarith
    · intro h
      have hc : ((t * 4 : ℕ) : ℚ) ≤ (((pySplit s).length * 3 : ℕ) : ℚ) := by
        push_cast
        linarith
      exact_mod_cast hc

/-- `jget` over a key-preserving re-mapping of an association list. -/
theorem jget_map_snd (f : String → JValue → JValue) (l : JDict) (key : String) :
    jget (l.map (fun kv => (kv.1, f kv.1 kv.2))) key = (jget l key).map (f key) := by
  induction l with
  | nil => rfl
  | cons kv t ih =>
    by_cases h : key = kv.1
    · simp [jget, h]
    · simp [jget, h, ih]

/-- C6: for every prior model, fragment and merge-oracle output (missing an
arbitrary subset of fields, including the empty dict), the model produced by
`merge_models` has exactly the top-level key sequence of the canonical empty
schema `empty_process_memory`: the Accumulator's top-level field set is an
invariant preserved by every merge. -/
theorem c6_schema_keys_invariant (a b merged : JDict) :
    (merge_models a b merged).map Prod.fst = empty_process_memory.map Prod.fst := rfl

/-- C1 is false on the code: with prior Accumulator `{"title": "X"}` and a
merge-oracle output `{}` omitting every field, the model stored by
`merge_models` holds the canonical empty default `null` under `"title"`,
not the prior value `"X"`: the omitted field is NOT restored from the prior
Accumulator value, and the previously accumulated knowledge is lost. -/
theorem c1_merge_backfill_counterexample :
    jget (merge_models [("title", JValue.str "X")] [] []) "title" = some JValue.null ∧
      JValue.null ≠ JValue.str "X" := by
  exact ⟨rfl, fun h => JValue.noConfusion h⟩

/-- C1 (amended): for every prior model, fragment and merge-oracle output,
each field the merge output omits is back-filled from the canonical empty
schema's default for that field (`merge_models` ignores the prior model when
back-filling), so the key set never shrinks but prior values under omitted
fields are not preserved. -/
theorem c1_merge_backfill_from_empty_schema (a b merged : JDict) (k : String)
    (h : jget merged k = none) :
    jget (merge_models a b merged) k = jget empty_process_memory k := by
  unfold merge_models
  rw [jget_map_snd (fun key v => (jget merged key).getD v) empty_process_memory k]
  rw [h]
  cases jget empty_process_memory k <;> rfl

/-- The amended C1 at a concrete input: the oracle output `{}` omits
`"overview"`, and the stored model holds the empty-schema default there. -/
theorem c1_merge_backfill_from_empty_schema_witness :
    jget (merge_models [("title", JValue.str "X")] [] []) "overview" =
      jget empty_process_memory "overview" :=
  c1_merge_backfill_from_empty_schema [("title", JValue.str "X")] [] [] "overview" rfl
